import Mathlib

/-
Verification of the munin exporter (Go) against its specification.

The embedding models the current source variant of `munin_exporter.go`
(the one using loggo, a WaitGroup export gate, and the dual
gauge/counter metric maps).  Go strings are modelled as `List Char`;
Go maps (`map[string]V`) as insertion-ordered association lists;
`float64` values as exact rationals extended with infinities and NaN
(rounding is immaterial: values are stored and republished verbatim).
Wall-clock time and the network are not observable in a shallow
embedding: the response stream of each issued protocol command is a
script of read events, and the duration measured by a sampling cycle
is an oracle parameter standing for `time.Since(start).Seconds()`.
-/

namespace MuninExporter

/-- Go strings, modelled as their character lists. -/
abbrev Str := List Char

/-! ### Insertion-ordered association maps (model of Go maps).

Go map iteration order is unspecified; the model iterates in insertion
order.  No claim below depends on iteration order. -/

/-- Lookup in an association map (`m[k]`, with the `ok` flag as `Option`). -/
def alookup {α β : Type} [DecidableEq α] : List (α × β) → α → Option β
  | [], _ => none
  | (k, v) :: rest, key => if k = key then some v else alookup rest key

/-- Map update `m[k] = v`: replaces the existing binding or appends. -/
def ainsert {α β : Type} [DecidableEq α] : List (α × β) → α → β → List (α × β)
  | [], k, v => [(k, v)]
  | (k', v') :: rest, k, v =>
    if k' = k then (k, v) :: rest else (k', v') :: ainsert rest k v

theorem alookup_ainsert_self {α β : Type} [DecidableEq α] (m : List (α × β)) (k : α) (v : β) :
    alookup (ainsert m k v) k = some v := by
  induction m with
  | nil => simp [ainsert, alookup]
  | cons hd tl ih =>
    obtain ⟨k', v'⟩ := hd
    by_cases hk : k' = k
    · simp [ainsert, hk, alookup]
    · simp [ainsert, hk, alookup, ih]

theorem alookup_ainsert_ne {α β : Type} [DecidableEq α] (m : List (α × β)) (k k' : α) (v : β)
    (h : k ≠ k') : alookup (ainsert m k v) k' = alookup m k' := by
  induction m with
  | nil => simp [ainsert, alookup, h]
  | cons hd tl ih =>
    obtain ⟨k0, v0⟩ := hd
    by_cases hk : k0 = k
    · simp [ainsert, hk, alookup, h]
    · simp [ainsert, hk, alookup, ih]

theorem alookup_ainsert_isSome {α β : Type} [DecidableEq α] (m : List (α × β)) (k k' : α) (v : β) :
    (alookup (ainsert m k v) k').isSome = true ↔ k' = k ∨ (alookup m k').isSome = true := by
  by_cases hk : k' = k
  · subst hk
    simp [alookup_ainsert_self]
  · rw [alookup_ainsert_ne m k k' v (fun h => hk h.symm)]
    simp [hk]

/-! ### Go string primitives used by the exporter. -/

/-- `unicode.IsSpace` restricted to the ASCII range (the protocol is
line-oriented ASCII text; non-ASCII space code points do not occur). -/
def goIsSpace (c : Char) : Bool :=
  c = ' ' || c = '\t' || c = '\n' || c = '\x0b' || c = '\x0c' || c = '\r'

/-- Accumulator worker for `goFields`. -/
def goFieldsAux : List Char → List Char → List Str
  | [], acc => if acc = [] then [] else [acc.reverse]
  | c :: cs, acc =>
    if goIsSpace c then
      if acc = [] then goFieldsAux cs [] else acc.reverse :: goFieldsAux cs []
    else goFieldsAux cs (c :: acc)

/-- `strings.Fields`: split around runs of whitespace, dropping empties. -/
def goFields (s : Str) : List Str := goFieldsAux s []

/-- `strings.TrimRight(s, "\n")`: drop every trailing newline character. -/
def trimRightNL (s : Str) : Str := (s.reverse.dropWhile (fun c => c = '\n')).reverse

/-- Accumulator worker for `goSplit`. -/
def goSplitAux (sep : Char) : List Char → List Char → List Str
  | [], acc => [acc.reverse]
  | c :: cs, acc =>
    if c = sep then acc.reverse :: goSplitAux sep cs [] else goSplitAux sep cs (c :: acc)

/-- `strings.Split(s, sep)` for a one-character separator. -/
def goSplit (sep : Char) (s : Str) : List Str := goSplitAux sep s []

/-- `strings.Join(parts, " ")`. -/
def joinSpace : List Str → Str
  | [] => []
  | [x] => x
  | x :: xs => x ++ ' ' :: joinSpace xs

/-- ASCII case folding of one character (`strings.ToLower`; the
`type` attribute values compared by the exporter are ASCII). -/
def asciiLowerChar (c : Char) : Char :=
  if 'A' ≤ c && c ≤ 'Z' then Char.ofNat (c.toNat + 32) else c

/-- `strings.ToLower` on the ASCII fragment. -/
def asciiLower (s : Str) : Str := s.map asciiLowerChar

/-- `strings.Replace(s, "-", "_", -1)`.  For a one-character pattern,
replacing every non-overlapping occurrence is exactly a character map. -/
def replaceDash (s : Str) : Str := s.map (fun c => if c = '-' then '_' else c)

/-! ### Go float64 values and `strconv.ParseFloat`.

Values are modelled exactly: a parsed decimal is kept as a rational.
The model covers the decimal syntax (optional sign, digits with an
optional fractional part, optional decimal exponent) and the special
forms `inf`/`infinity`/`nan` (case-insensitive, optionally signed).
Hexadecimal floats and digit-separating underscores, which real munin
values never contain, are rejected by the model. -/

/-- A Go `float64` as stored by the exporter. -/
inductive GoFloat : Type
  | finite (q : ℚ)
  | pinf
  | ninf
  | nan
deriving DecidableEq, Repr

/-- Leading sign: returns (negative?, rest). -/
def splitSign : List Char → Bool × List Char
  | '+' :: r => (false, r)
  | '-' :: r => (true, r)
  | r => (false, r)

/-- Is `c` an ASCII digit? -/
def isDigit (c : Char) : Bool := '0' ≤ c && c ≤ '9'

/-- Numeric value of an all-digit string. -/
def digitsToNat (s : List Char) : ℕ := s.foldl (fun a c => a * 10 + (c.toNat - 48)) 0

/-- Split a mantissa at the first `e`/`E`, if any. -/
def splitExp : List Char → List Char × Option (List Char)
  | [] => ([], none)
  | c :: cs =>
    if c = 'e' || c = 'E' then ([], some cs)
    else
      let (m, e) := splitExp cs
      (c :: m, e)

/-- Parse the digit mantissa `intpart[.fracpart]` into (value, defined?). -/
def parseMantissa (m : List Char) : Option ℚ :=
  match goSplit '.' m with
  | [ip] =>
    if ip ≠ [] && ip.all isDigit then some ((digitsToNat ip : ℚ)) else none
  | [ip, fp] =>
    if (ip ++ fp) ≠ [] && ip.all isDigit && fp.all isDigit then
      some ((digitsToNat (ip ++ fp) : ℚ) / (10 : ℚ) ^ fp.length)
    else none
  | _ => none

/-- `strconv.ParseFloat(s, 64)` on the syntax described above. -/
def parseFloat (s : Str) : Option GoFloat :=
  let (neg, r) := splitSign s
  let low := asciiLower r
  if low = "inf".data || low = "infinity".data then
    some (if neg then GoFloat.ninf else GoFloat.pinf)
  else if low = "nan".data then some GoFloat.nan
  else
    let (mant, expPart) := splitExp r
    match parseMantissa mant with
    | none => none
    | some q =>
      match expPart with
      | none => some (GoFloat.finite (if neg then -q else q))
      | some ex =>
        let (eneg, edigits) := splitSign ex
        if edigits ≠ [] && edigits.all isDigit then
          let e := digitsToNat edigits
          let scaled := if eneg then q / (10 : ℚ) ^ e else q * (10 : ℚ) ^ e
          some (GoFloat.finite (if neg then -scaled else scaled))
        else none

/-! ### Connection Manager: the handshake (`connect`, lines 383-404).

`connect` reads one line and matches it against the compiled regular
expression `# munin node at (.*)` via `FindStringSubmatch`.  The
pattern is unanchored and all-literal apart from the single capturing
group, so a match is the leftmost occurrence of the literal
`"# munin node at "`, with the group greedily capturing the following
run of non-newline characters.  `len(matches) != 2` is exactly "no
match" (a successful match of this pattern always yields the full
match plus the one group). -/

/-- The literal part of the `muninBanner` regular expression. -/
def bannerLit : Str := "# munin node at ".data

/-- Does `p` begin the list `s`? -/
def begWith : List Char → List Char → Bool
  | [], _ => true
  | _ :: _, [] => false
  | p :: ps, c :: cs => p == c && begWith ps cs

/-- `FindStringSubmatch` for `muninBanner`: capture of the leftmost
match, greedy up to the end of the line. -/
def findBanner : Str → Option Str
  | [] => none
  | c :: cs =>
    if begWith bannerLit (c :: cs) then
      some (((c :: cs).drop bannerLit.length).takeWhile (fun d => d ≠ '\n'))
    else findBanner cs

/-- Result of `connect()` as far as the handshake is concerned. -/
inductive ConnectOutcome : Type
  | ok (hostname : Str)
  | connectError
deriving DecidableEq, Repr

/-- `connect` (lines 397-403): on a banner match the global `hostname`
is assigned the captured group and the call succeeds; otherwise it
returns the "Unexpected line" error and `hostname` keeps its prior
value. -/
def connectHandshake (prev : Option Str) (head : Str) : Option Str × ConnectOutcome :=
  match findBanner head with
  | some h => (some h, ConnectOutcome.ok h)
  | none => (prev, ConnectOutcome.connectError)

theorem begWith_iff (p s : List Char) : begWith p s = true ↔ p <+: s := by
  induction p generalizing s with
  | nil => simp [begWith]
  | cons a ps ih =>
    cases s with
    | nil => simp [begWith]
    | cons c cs =>
      simp only [begWith, Bool.and_eq_true, beq_iff_eq, ih, List.cons_prefix_cons]

theorem bannerLit_ne_nil : bannerLit ≠ [] := by decide

theorem findBanner_eq_none (s : Str) (H : ∀ i, ¬ bannerLit <+: s.drop i) :
    findBanner s = none := by
  induction s with
  | nil => rfl
  | cons c cs ih =>
    have h0 : ¬ begWith bannerLit (c :: cs) = true := by
      rw [begWith_iff]
      exact H 0
    rw [findBanner, if_neg h0]
    exact ih (fun i => H (i + 1))

theorem findBanner_eq_some (s : Str) (i : ℕ) (hocc : bannerLit <+: s.drop i)
    (hmin : ∀ j, j < i → ¬ bannerLit <+: s.drop j) :
    findBanner s = some ((s.drop (i + bannerLit.length)).takeWhile (fun d => d ≠ '\n')) := by
  induction s generalizing i with
  | nil =>
    rw [List.drop_nil] at hocc
    exact absurd (List.prefix_nil.mp hocc) bannerLit_ne_nil
  | cons c cs ih =>
    cases i with
    | zero =>
      have h0 : begWith bannerLit (c :: cs) = true := (begWith_iff _ _).mpr hocc
      rw [findBanner, if_pos h0]
      simp
    | succ j =>
      have h0 : ¬ begWith bannerLit (c :: cs) = true := by
        rw [begWith_iff]
        exact hmin 0 (Nat.succ_pos j)
      rw [findBanner, if_neg h0]
      have hocc' : bannerLit <+: cs.drop j := by
        simpa [List.drop_succ_cons] using hocc
      have hmin' : ∀ k, k < j → ¬ bannerLit <+: cs.drop k := by
        intro k hk
        have := hmin (k + 1) (Nat.succ_lt_succ hk)
        simpa [List.drop_succ_cons] using this
      have := ih j hocc' hmin'
      simpa [List.drop_succ_cons, Nat.succ_add] using this

theorem takeWhile_eq_of_append (p : Char → Bool) (h post : List Char)
    (hall : ∀ c ∈ h, p c = true)
    (hpost : post.head? = none ∨ ∃ c, post.head? = some c ∧ p c = false) :
    (h ++ post).takeWhile p = h := by
  induction h with
  | nil =>
    cases post with
    | nil => rfl
    | cons q qs =>
      rcases hpost with hnil | ⟨c, hc, hpc⟩
      · simp at hnil
      · simp only [List.head?_cons, Option.some.injEq] at hc
        subst hc
        simp [List.takeWhile_cons, hpc]
  | cons a h' ih =>
    have ha : p a = true := hall a (List.mem_cons_self a h')
    have ih' := ih (fun c hc => hall c (List.mem_cons_of_mem a hc))
    simp [List.takeWhile_cons, ha, ih']

/-! ### Response streams.

`muninCommand` writes the command and hands back a buffered reader; a
multi-line response is consumed with `ReadString('\n')`.  The model
scripts each read: a full line (always newline-terminated and
nonempty, as `ReadString` returns with a nil error), an end-of-stream
(`io.EOF`, whose partial data the code discards), or a non-EOF read
error.  A command that is retried after EOF (reconnect inside
`muninCommand`, then re-issue) consumes the next script of the
environment. -/

/-- One `ReadString('\n')` result. -/
inductive LineEv : Type
  | full (l : Str)
  | eofEv
  | ioErr
deriving DecidableEq, Repr

/-! ### Protocol Client: `muninConfig` (lines 457-499). -/

/-- Per-metric attribute map (`config[metric][attr]`). -/
abbrev AttrMap := List (Str × Str)

/-- `config`: metric name to attribute map. -/
abbrev CfgMap := List (Str × AttrMap)

/-- How one attempt of the `muninConfig` read loop ends. -/
inductive AttemptRes : Type
  | done (cfg : CfgMap) (gcfg : AttrMap)
  | fail
  | eofEnd
  | blocked
deriving DecidableEq, Repr

/-- The read loop of `muninConfig` (lines 467-497), over one response
script, threading the two accumulator maps.  `fail` covers both a
non-EOF read error and the `"Line unexpected"` short-line error (both
`return nil, nil, err`); `eofEnd` is the `io.EOF` branch; `blocked`
means the script ran out, i.e. the reader would block. -/
def configLoop : List LineEv → CfgMap → AttrMap → AttemptRes
  | [], _, _ => AttemptRes.blocked
  | LineEv.eofEv :: _, _, _ => AttemptRes.eofEnd
  | LineEv.ioErr :: _, _, _ => AttemptRes.fail
  | LineEv.full l :: rest, cfg, gcfg =>
    if l = ".\n".data then AttemptRes.done cfg gcfg
    else if l.head? = some '#' then configLoop rest cfg gcfg
    else
      match goFields l with
      | p0 :: p1 :: ptail =>
        let value := trimRightNL (joinSpace (p1 :: ptail))
        match goSplit '.' p0 with
        | k0 :: k1 :: _ =>
          let inner := (alookup cfg k0).getD []
          configLoop rest (ainsert cfg k0 (ainsert inner k1 value)) gcfg
        | [k0] => configLoop rest cfg (ainsert gcfg k0 value)
        | [] => configLoop rest cfg gcfg
      | _ => AttemptRes.fail

/-- Overall result of `muninConfig`. -/
inductive ConfigOutcome : Type
  | ok (cfg : CfgMap) (gcfg : AttrMap)
  | err
  | scriptOut
deriving DecidableEq, Repr

/-- `muninConfig(name)`: the maps are freshly allocated on entry; on
`io.EOF` mid-response the function logs at critical level (no process
exit in this variant) and re-enters itself, which re-issues
`config name` after `muninCommand`'s reconnect loop and starts over
with fresh maps.  Each retry consumes the next response script. -/
def muninConfigModel : List (List LineEv) → ConfigOutcome
  | [] => ConfigOutcome.scriptOut
  | evs :: rest =>
    match configLoop evs [] [] with
    | AttemptRes.done c g => ConfigOutcome.ok c g
    | AttemptRes.fail => ConfigOutcome.err
    | AttemptRes.blocked => ConfigOutcome.scriptOut
    | AttemptRes.eofEnd => muninConfigModel rest

/-! ### Metric Catalog state.

`gaugePerMetric` and `counterPerMetric` are the two process-global
lookup maps.  A `prometheus.GaugeVec` is modelled as its children: a
map from the tuple of label values to the last `Set` value.  A
`muninCounter` is the struct of lines 311-316. -/

/-- Model of a `prometheus.GaugeVec` (help text plus children). -/
structure GaugeVec : Type where
  help : Str
  children : List (List Str × GoFloat)
deriving DecidableEq, Repr

/-- `WithLabelValues(labels...).Set(v)`. -/
def GaugeVec.set (g : GaugeVec) (labels : List Str) (v : GoFloat) : GaugeVec :=
  { g with children := ainsert g.children labels v }

/-- The `muninCounter` struct (lines 311-316): a descriptor (its help
text), the last stored value, and the label values of the last update. -/
structure muninCounter : Type where
  help : Str
  value : GoFloat
  currentLabels : List Str
deriving DecidableEq, Repr

/-- `UpdateLabels` (lines 338-341). -/
def muninCounter.UpdateLabels (c : muninCounter) (labels : List Str) (v : GoFloat) : muninCounter :=
  { c with value := v, currentLabels := labels }

/-- The placeholder label values hard-coded in `Collect` (line 325). -/
def brokenLabels : List Str := ["ThisMunin".data, "Plugin".data, "IsBroken".data]

/-- `Collect` (lines 323-333): if no update ever supplied labels, the
receiver's label list is first overwritten with the placeholder; the
emitted constant metric carries the stored value and the (possibly
placeholder) labels. -/
def muninCounter.Collect (c : muninCounter) : muninCounter × GoFloat × List Str :=
  let c' := if c.currentLabels.length = 0 then { c with currentLabels := brokenLabels } else c
  (c', c'.value, c'.currentLabels)

/-- The two global metric maps. -/
structure MState : Type where
  gauges : List (Str × GaugeVec)
  counters : List (Str × muninCounter)
deriving DecidableEq, Repr

/-! ### Metric Catalog construction: `registerMetrics` (lines 501-566). -/

/-- Line 515: `strings.Replace(name+"_"+metric, "-", "_", -1)`. -/
def registerMetricName (name metric : Str) : Str :=
  replaceDash (name ++ "_".data ++ metric)

/-- Line 604: `strings.Replace(graph+"_"+key, "-", "_", -1)`. -/
def fetchMetricName (graph key : Str) : Str :=
  replaceDash (graph ++ "_".data ++ key)

/-- Exposition kind chosen at registration. -/
inductive Kind : Type
  | gaugeK
  | counterK
deriving DecidableEq, Repr

/-- Lines 520-522: `muninType := strings.ToLower(config["type"])`; a
missing key reads as the empty string; counter-like iff the lowercased
attribute is `"counter"` or `"derive"`. -/
def classifyKind (config : AttrMap) : Kind :=
  let muninType := asciiLower ((alookup config "type".data).getD [])
  if muninType = "counter".data || muninType = "derive".data then Kind.counterK
  else Kind.gaugeK

/-- Lines 516-519: help text `graph_title ++ ": " ++ label`, with
`", " ++ info` appended when `info` is present and non-empty. -/
def descOf (graphConfig config : AttrMap) : Str :=
  let desc := (alookup graphConfig "graph_title".data).getD [] ++ ": ".data ++
    (alookup config "label".data).getD []
  if (alookup config "info".data).getD [] ≠ [] then
    desc ++ ", ".data ++ (alookup config "info".data).getD []
  else desc

/-- One iteration of the `for metric, config := range configs` body
(lines 514-541): classify and insert the new metric into exactly one
of the two maps.  A fresh counter has the Go zero value `0` and nil
labels (`newMuninCounter`, lines 343-352); a fresh gauge vec has no
children yet. -/
def registerMetricsOne (name : Str) (mc : Str × AttrMap) (graphConfig : AttrMap)
    (st : MState) : MState :=
  let metricName := registerMetricName name mc.1
  let desc := descOf graphConfig mc.2
  match classifyKind mc.2 with
  | Kind.counterK =>
    { st with counters := ainsert st.counters metricName ⟨desc, GoFloat.finite 0, []⟩ }
  | Kind.gaugeK =>
    { st with gauges := ainsert st.gauges metricName ⟨desc, []⟩ }

/-- All metrics of one graph.  Go map iteration order is unspecified;
the model iterates the parsed config in list order (no claim depends
on the order). -/
def registerGraph (name : Str) (configs : List (Str × AttrMap)) (graphConfig : AttrMap)
    (st : MState) : MState :=
  configs.foldl (fun s mc => registerMetricsOne name mc graphConfig s) st

/-- The map key under which the cycle-duration gauge is stored
(line 563); its registered metric name is
`munin_exporter_munin_data_fetch_time`. -/
def fetchTimeKey : Str := "munin_fetching_metric".data

/-- Help string of the cycle-duration gauge (lines 557-558). -/
def fetchTimeHelp : Str :=
  "A metric showing the amount of time it takes to get all the data from munin and it".data ++
    [Char.ofNat 39] ++ "s plugins".data

/-- `registerMetrics` (lines 501-566) applied to already-parsed
per-graph data `(name, configs, graphConfig)`: register every metric
of every graph, then install the cycle-duration gauge (with variable
label `hostname`) under key `munin_fetching_metric`.  The
`munin_exporter_build_info` gauge is registered with the exposition
library only and never enters either lookup map, so it is not part of
this state. -/
def registerMetricsModel (graphData : List (Str × List (Str × AttrMap) × AttrMap)) : MState :=
  let st := graphData.foldl (fun s gd => registerGraph gd.1 gd.2.1 gd.2.2 s) ⟨[], []⟩
  { st with gauges := ainsert st.gauges fetchTimeKey ⟨fetchTimeHelp, []⟩ }

/-! ### Sampler: `fetchMetrics` (lines 568-622). -/

/-- Lines 593-616: handle one (already newline-trimmed) response line
of `fetch graph`.  A line that does not split into exactly two fields
is logged and skipped; a value that fails `ParseFloat` is logged and
skipped; otherwise the identifier is resolved first in the gauge map,
then in the counter map, and the matching entry (if any) is
overwritten with the value and the labels `(hostname, graph, key)`. -/
def processLine (hn graph : Str) (st : MState) (line : Str) : MState :=
  match goFields line with
  | [p0, p1] =>
    let key := (goSplit '.' p0).headD []
    match parseFloat p1 with
    | none => st
    | some value =>
      let name := fetchMetricName graph key
      match alookup st.gauges name with
      | some gv =>
        { st with gauges := ainsert st.gauges name (gv.set [hn, graph, key] value) }
      | none =>
        match alookup st.counters name with
        | some c =>
          { st with counters := ainsert st.counters name (c.UpdateLabels [hn, graph, key] value) }
        | none => st
  | _ => st

/-- How the read loop over one graph's `fetch` response ends. -/
inductive GraphRes : Type
  | finished (st : MState)
  | ioAbort (st : MState)
  | eofHit (st : MState)
  | blocked (st : MState)
deriving DecidableEq, Repr

/-- The state carried by a `GraphRes`. -/
def GraphRes.state : GraphRes → MState
  | GraphRes.finished st => st
  | GraphRes.ioAbort st => st
  | GraphRes.eofHit st => st
  | GraphRes.blocked st => st

/-- The inner loop of `fetchMetrics` (lines 577-617) for one graph:
trim the line, break on the `"."` end marker, otherwise process the
line and continue.  `io.EOF` and non-EOF errors end the loop as
`eofHit` and `ioAbort` respectively. -/
def graphLoop (hn graph : Str) : List LineEv → MState → GraphRes
  | [], st => GraphRes.blocked st
  | LineEv.eofEv :: _, st => GraphRes.eofHit st
  | LineEv.ioErr :: _, st => GraphRes.ioAbort st
  | LineEv.full l :: rest, st =>
    let line := trimRightNL l
    if line.length = 1 ∧ line.head? = some '.' then GraphRes.finished st
    else graphLoop hn graph rest (processLine hn graph st line)

/-- How the walk over all graphs of one cycle ends. -/
inductive CycleRes : Type
  | ok (st : MState) (env : List (List LineEv))
  | errAbort (st : MState) (env : List (List LineEv))
  | eofRestart (st : MState) (env : List (List LineEv))
  | blocked (st : MState)
deriving DecidableEq, Repr

/-- The state carried by a `CycleRes`. -/
def CycleRes.state : CycleRes → MState
  | CycleRes.ok st _ => st
  | CycleRes.errAbort st _ => st
  | CycleRes.eofRestart st _ => st
  | CycleRes.blocked st => st

/-- The `for _, graph := range graphs` loop of `fetchMetrics`
(lines 571-618): issue `fetch graph` (consuming the next response
script of the environment) and run the inner loop; a non-EOF read
error aborts the cycle (`return err`), an EOF asks for a whole-cycle
restart. -/
def graphsLoop (hn : Str) : List Str → List (List LineEv) → MState → CycleRes
  | [], env, st => CycleRes.ok st env
  | g :: gs, env, st =>
    match env with
    | [] => CycleRes.blocked st
    | sc :: envRest =>
      match graphLoop hn g sc st with
      | GraphRes.finished st' => graphsLoop hn gs envRest st'
      | GraphRes.ioAbort st' => CycleRes.errAbort st' envRest
      | GraphRes.eofHit st' => CycleRes.eofRestart st' envRest
      | GraphRes.blocked st' => CycleRes.blocked st'

/-- Line 619: publish the measured cycle duration on the
cycle-duration gauge, labeled by the agent hostname.  (If the key were
absent the Go code would fault on a nil map entry; `registerMetrics`
always installs it, and the model leaves the state unchanged in that
unreachable case.) -/
def setFetchTime (st : MState) (hn : Str) (dur : GoFloat) : MState :=
  match alookup st.gauges fetchTimeKey with
  | some gv => { st with gauges := ainsert st.gauges fetchTimeKey (gv.set [hn] dur) }
  | none => st

/-- Final status of a `fetchMetrics` call. -/
inductive FOutcome : Type
  | ok
  | errAbort
  | scriptOut
deriving DecidableEq, Repr

/-- Result of a `fetchMetrics` call: the metric maps, the WaitGroup
counter, and the way the call returned. -/
structure FetchRes : Type where
  st : MState
  wg : ℕ
  outcome : FOutcome
deriving DecidableEq, Repr

/-- `fetchMetrics` (lines 568-622) with explicit WaitGroup counter.
`wg.Add(1)` on entry; on the success path the duration gauge is set
and `wg.Done()` runs; `return err` (line 585) returns WITHOUT
`wg.Done()`; the `io.EOF` branch (lines 580-583) logs at critical
level and re-enters `fetchMetrics()`, whose fresh invocation runs
`wg.Add(1)` again while the outer increment is never undone.  `dur`
stands for `time.Since(start).Seconds()` of the invocation that
completes.  The fuel argument only bounds the EOF-restart recursion;
each restart consumes at least one response script, so
`env.length + 1` is always enough. -/
def fetchMetricsFuel (hn : Str) (dur : GoFloat) :
    ℕ → List Str → List (List LineEv) → MState → ℕ → FetchRes
  | 0, _, _, st, wg => ⟨st, wg, FOutcome.scriptOut⟩
  | fuel + 1, graphs, env, st, wg =>
    let wg1 := wg + 1
    match graphsLoop hn graphs env st with
    | CycleRes.ok st' _ => ⟨setFetchTime st' hn dur, wg1 - 1, FOutcome.ok⟩
    | CycleRes.errAbort st' _ => ⟨st', wg1, FOutcome.errAbort⟩
    | CycleRes.eofRestart st' env' => fetchMetricsFuel hn dur fuel graphs env' st' wg1
    | CycleRes.blocked st' => ⟨st', wg1, FOutcome.scriptOut⟩

/-- `fetchMetrics` over a finite environment of response scripts. -/
def fetchMetricsModel (hn : Str) (dur : GoFloat) (graphs : List Str)
    (env : List (List LineEv)) (st : MState) (wg : ℕ) : FetchRes :=
  fetchMetricsFuel hn dur (env.length + 1) graphs env st wg

/-! ### Helper lemmas shared by the claim theorems. -/

theorem processLine_skip (hn g : Str) (st : MState) (line : Str)
    (h : (goFields line).length ≠ 2 ∨
      (∀ p0 p1, goFields line = [p0, p1] → parseFloat p1 = none)) :
    processLine hn g st line = st := by
  unfold processLine
  cases hf : goFields line with
  | nil => rfl
  | cons a tl =>
    cases tl with
    | nil => rfl
    | cons b tl2 =>
      cases tl2 with
      | nil =>
        rcases h with h2 | hp
        · rw [hf] at h2
          simp at h2
        · have hpn := hp a b hf
          simp [hpn]
      | cons c tl3 => rfl

theorem configLoop_eofEnd_any (evs : List LineEv) :
    ∀ (cfg gcfg cfg' gcfg' : _), configLoop evs cfg gcfg = AttemptRes.eofEnd →
      configLoop evs cfg' gcfg' = AttemptRes.eofEnd := by
  induction evs with
  | nil => intro _ _ _ _ h; exact absurd h (by simp [configLoop])
  | cons ev rest ih =>
    intro cfg gcfg cfg' gcfg' h
    cases ev with
    | eofEv => simp [configLoop]
    | ioErr => exact absurd h (by simp [configLoop])
    | full l =>
      by_cases hdot : l = ".\n".data
      · rw [configLoop, if_pos hdot] at h
        exact absurd h (by simp)
      · by_cases hcom : l.head? = some '#'
        · rw [configLoop, if_neg hdot, if_pos hcom] at h
          rw [configLoop, if_neg hdot, if_pos hcom]
          exact ih _ _ _ _ h
        · rw [configLoop, if_neg hdot, if_neg hcom] at h
          rw [configLoop, if_neg hdot, if_neg hcom]
          revert h
          cases hf : goFields l with
          | nil =>
            intro h
            simp at h
          | cons p0 ptl =>
            cases ptl with
            | nil =>
              intro h
              simp at h
            | cons p1 ptail =>
              simp only []
              cases hs : goSplit '.' p0 with
              | nil => exact ih _ _ _ _
              | cons k0 ktl =>
                cases ktl with
                | nil => exact ih _ _ _ _
                | cons k1 krest => exact ih _ _ _ _

/-! ### Claim theorems. -/

/-- C4: for every handshake line received by `connect`, if the line
matches `# munin node at <hostname>` (leftmost occurrence of the
literal at position `i`, capture `h` running greedily to the end of
the line), connect succeeds and the stored hostname is exactly the
captured group; for any line with no occurrence of the literal,
connect returns the `ConnectError` and leaves the hostname unset. -/
theorem claim_C4_connect_handshake (head : Str) (prev : Option Str) :
    (∀ (i : ℕ) (h post : Str),
      bannerLit <+: head.drop i →
      (∀ j : Fin i, ¬ bannerLit <+: head.drop j.val) →
      head.drop (i + bannerLit.length) = h ++ post →
      (∀ c ∈ h, c ≠ '\n') →
      (post.head? = none ∨ post.head? = some '\n') →
      connectHandshake prev head = (some h, ConnectOutcome.ok h))
    ∧ ((∀ i : Fin (head.length + 1), ¬ bannerLit <+: head.drop i.val) →
      connectHandshake prev head = (prev, ConnectOutcome.connectError)) := by
  constructor
  · intro i h post hocc hmin hdecomp hall hpost
    have hmin' : ∀ j, j < i → ¬ bannerLit <+: head.drop j := fun j hj => hmin ⟨j, hj⟩
    have hfind := findBanner_eq_some head i hocc hmin'
    have htake : (head.drop (i + bannerLit.length)).takeWhile (fun d => d ≠ '\n') = h := by
      rw [hdecomp]
      apply takeWhile_eq_of_append
      · intro c hc
        simpa using hall c hc
      · rcases hpost with hp | hp
        · exact Or.inl hp
        · exact Or.inr ⟨'\n', hp, by simp⟩
    rw [connectHandshake, hfind, htake]
  · intro hnone
    have hnone' : ∀ i, ¬ bannerLit <+: head.drop i := by
      intro i
      by_cases hi : i ≤ head.length
      · exact hnone ⟨i, Nat.lt_succ_of_le hi⟩
      · rw [List.drop_eq_nil_of_le (le_of_not_le hi)]
        intro hpre
        exact bannerLit_ne_nil (List.prefix_nil.mp hpre)
    rw [connectHandshake, findBanner_eq_none head hnone']

/-- C4 witness: the matching handshake `# munin node at host1\n`
stores hostname `host1`; the non-matching line `hello\n` yields the
error and keeps the previous hostname. -/
theorem claim_C4_connect_handshake_witness :
    connectHandshake none "# munin node at host1\n".data =
      (some "host1".data, ConnectOutcome.ok "host1".data) ∧
    connectHandshake (some "old".data) "hello\n".data =
      (some "old".data, ConnectOutcome.connectError) := by
  constructor
  · exact (claim_C4_connect_handshake "# munin node at host1\n".data none).1 0 "host1".data
      ['\n'] (by decide) (by decide) (by decide) (by decide) (by decide)
  · exact (claim_C4_connect_handshake "hello\n".data (some "old".data)).2 (by decide)

/-- C5: exposition-kind classification is a function of the `type`
attribute alone: registration inserts the metric into the counter map
exactly when the attribute, compared case-insensitively, equals
`counter` or `derive` (leaving the gauge map untouched), and into
the gauge map for any other value and when the attribute is absent
(leaving the counter map untouched). -/
theorem claim_C5_classification (name metric : Str) (config gcfg : AttrMap) (st : MState) :
    ((∃ t, alookup config "type".data = some t ∧
        (asciiLower t = "counter".data ∨ asciiLower t = "derive".data)) →
      (alookup (registerMetricsOne name (metric, config) gcfg st).counters
          (registerMetricName name metric)).isSome = true ∧
      (registerMetricsOne name (metric, config) gcfg st).gauges = st.gauges)
    ∧ ((∀ t, alookup config "type".data = some t →
        asciiLower t ≠ "counter".data ∧ asciiLower t ≠ "derive".data) →
      (alookup (registerMetricsOne name (metric, config) gcfg st).gauges
          (registerMetricName name metric)).isSome = true ∧
      (registerMetricsOne name (metric, config) gcfg st).counters = st.counters) := by
  constructor
  · rintro ⟨t, ht, hlow⟩
    have hk : classifyKind config = Kind.counterK := by
      unfold classifyKind
      rw [ht]
      rcases hlow with h1 | h1 <;> simp [h1]
    simp [registerMetricsOne, hk, alookup_ainsert_self]
  · intro hno
    have hk : classifyKind config = Kind.gaugeK := by
      unfold classifyKind
      cases hcase : alookup config "type".data with
      | none => decide
      | some t =>
        have hn := hno t hcase
        simp [hn.1, hn.2]
    simp [registerMetricsOne, hk, alookup_ainsert_self]

/-- C5 witness: a `COUNTER`-typed metric lands in the counter map; a
metric without a `type` attribute lands in the gauge map. -/
theorem claim_C5_classification_witness :
    (alookup (registerMetricsOne "net".data ("rx".data, [("type".data, "COUNTER".data)])
        [] ⟨[], []⟩).counters "net_rx".data).isSome = true ∧
    (alookup (registerMetricsOne "cpu".data ("usage".data, [("label".data, "x".data)])
        [] ⟨[], []⟩).gauges "cpu_usage".data).isSome = true := by
  constructor
  · exact ((claim_C5_classification "net".data "rx".data [("type".data, "COUNTER".data)]
      [] ⟨[], []⟩).1 ⟨"COUNTER".data, by decide, Or.inl (by decide)⟩).1
  · refine ((claim_C5_classification "cpu".data "usage".data [("label".data, "x".data)]
      [] ⟨[], []⟩).2 ?_).1
    intro t ht
    simp [alookup] at ht

/-- C6: the external identifier is the pure function
`graph ++ "_" ++ metric` with every `-` replaced by `_`; the
computation at the registration site (line 515) and at the fetch
resolution site (line 604) is the same function, it contains no `-`
in its result, and identical (graph, metric) pairs yield identical
identifiers across the two sites. -/
theorem claim_C6_identifier (g m g' m' : Str) :
    registerMetricName g m = fetchMetricName g m ∧
    ('-' ∉ registerMetricName g m) ∧
    (g = g' → m = m' → registerMetricName g m = fetchMetricName g' m') := by
  refine ⟨rfl, ?_, ?_⟩
  · intro hmem
    simp only [registerMetricName, replaceDash, List.mem_map] at hmem
    obtain ⟨a, _, ha⟩ := hmem
    by_cases h : a = '-' <;> simp [h] at ha
  · rintro rfl rfl
    rfl

/-- C6 witness: the identifier for graph `disk-io` and metric
`read-ops` agrees across both sites and contains no dash. -/
theorem claim_C6_identifier_witness :
    registerMetricName "disk-io".data "read-ops".data =
      fetchMetricName "disk-io".data "read-ops".data ∧
    ('-' ∉ registerMetricName "disk-io".data "read-ops".data) := by
  refine ⟨(claim_C6_identifier "disk-io".data "read-ops".data "disk-io".data "read-ops".data).2.2
    rfl rfl,
    (claim_C6_identifier "disk-io".data "read-ops".data "disk-io".data "read-ops".data).2.1⟩

/-- C7: a fetch response line whose derived identifier is a key of
neither lookup map leaves the whole metric state unchanged: no entry
is mutated and no metric is registered. -/
theorem claim_C7_unknown_id_frame (hn graph : Str) (st : MState) (line p0 p1 : Str)
    (hfields : goFields line = [p0, p1])
    (hg : alookup st.gauges (fetchMetricName graph ((goSplit '.' p0).headD [])) = none)
    (hc : alookup st.counters (fetchMetricName graph ((goSplit '.' p0).headD [])) = none) :
    processLine hn graph st line = st := by
  unfold processLine
  rw [hfields]
  cases hparse : parseFloat p1 with
  | none => simp [hparse]
  | some v =>
    rw [List.headD_eq_head?] at hg hc
    simp [hparse, hg, hc]

/-- C7 witness: a value line for the unknown identifier
`cpu_unknown` leaves a state holding one gauge untouched. -/
theorem claim_C7_unknown_id_frame_witness :
    processLine "h".data "cpu".data
      ⟨[("cpu_usage".data, ⟨[], [(["h".data, "cpu".data, "usage".data], GoFloat.finite 1)]⟩)], []⟩
      "unknown.value 5".data =
    ⟨[("cpu_usage".data, ⟨[], [(["h".data, "cpu".data, "usage".data], GoFloat.finite 1)]⟩)], []⟩ := by
  exact claim_C7_unknown_id_frame "h".data "cpu".data _ "unknown.value 5".data
    "unknown.value".data "5".data (by decide) (by decide) (by decide)

/-- C9: collecting a counter whose stored label list is empty (it was
registered but never updated by a successful fetch) emits the fixed
placeholder label values `ThisMunin`, `Plugin`, `IsBroken` together
with the currently stored value. -/
theorem claim_C9_collect_placeholder (c : muninCounter) (h : c.currentLabels = []) :
    (c.Collect).2 = (c.value, brokenLabels) := by
  simp [muninCounter.Collect, h]

/-- C9 witness: a never-updated counter with stored value 5 collects
as value 5 under the placeholder labels. -/
theorem claim_C9_collect_placeholder_witness :
    ((⟨"d".data, GoFloat.finite 5, []⟩ : muninCounter).Collect).2 =
      (GoFloat.finite 5, brokenLabels) :=
  claim_C9_collect_placeholder ⟨"d".data, GoFloat.finite 5, []⟩ rfl

/-- C2 counterexample: in a `config` response, a line that does not
split into the expected field count is FATAL to the enclosing
command — `muninConfig` returns the `Line unexpected` error and
discards both maps, and the remaining lines of the response
(including a well-formed one) are never processed.  This refutes the
claim that every malformed line of a multi-line command is logged,
skipped, and non-fatal. -/
theorem claim_C2_counterexample :
    muninConfigModel [[LineEv.full "oops\n".data, LineEv.full "graph_title T\n".data,
      LineEv.full ".\n".data]] = ConfigOutcome.err := by decide

/-- C2 amended: in a `fetch` response, a line that does not split
into exactly two fields, or whose value field fails numeric parsing,
is logged and skipped — the loop continues on the rest of the same
response with the metric state untouched.  In a `config` response,
however, a non-comment line with fewer than two fields aborts the
whole enclosing command with an error. -/
theorem claim_C2_amended_parse_policy :
    (∀ (hn g : Str) (st : MState) (l : Str) (rest : List LineEv),
      ¬((trimRightNL l).length = 1 ∧ (trimRightNL l).head? = some '.') →
      ((goFields (trimRightNL l)).length ≠ 2 ∨
        (∀ p0 p1, goFields (trimRightNL l) = [p0, p1] → parseFloat p1 = none)) →
      graphLoop hn g (LineEv.full l :: rest) st = graphLoop hn g rest st)
    ∧ (∀ (l : Str) (rest : List LineEv) (cfg : CfgMap) (gcfg : AttrMap),
      l ≠ ".\n".data → l.head? ≠ some '#' → (goFields l).length < 2 →
      configLoop (LineEv.full l :: rest) cfg gcfg = AttemptRes.fail) := by
  constructor
  · intro hn g st l rest hnotdot hskip
    rw [graphLoop, if_neg hnotdot, processLine_skip hn g st (trimRightNL l) hskip]
  · intro l rest cfg gcfg hdot hcom hshort
    rw [configLoop, if_neg hdot, if_neg hcom]
    cases hf : goFields l with
    | nil => rfl
    | cons p0 ptl =>
      cases ptl with
      | nil => rfl
      | cons p1 ptail =>
        rw [hf] at hshort
        simp at hshort
        omega

/-- C2 witness: a three-field fetch line and an unparsable value line
are both skipped with the state kept, and a one-field config line
makes the config read loop fail. -/
theorem claim_C2_amended_parse_policy_witness :
    graphLoop "h".data "cpu".data
      [LineEv.full "bad line extra\n".data, LineEv.full ".\n".data] ⟨[], []⟩ =
      graphLoop "h".data "cpu".data [LineEv.full ".\n".data] ⟨[], []⟩ ∧
    graphLoop "h".data "cpu".data
      [LineEv.full "usage.value abc\n".data, LineEv.full ".\n".data] ⟨[], []⟩ =
      graphLoop "h".data "cpu".data [LineEv.full ".\n".data] ⟨[], []⟩ ∧
    configLoop [LineEv.full "oops\n".data] [] [] = AttemptRes.fail := by
  refine ⟨?_, ?_, ?_⟩
  · exact claim_C2_amended_parse_policy.1 "h".data "cpu".data ⟨[], []⟩
      "bad line extra\n".data [LineEv.full ".\n".data] (by decide) (Or.inl (by decide))
  · refine claim_C2_amended_parse_policy.1 "h".data "cpu".data ⟨[], []⟩
      "usage.value abc\n".data [LineEv.full ".\n".data] (by decide) (Or.inr ?_)
    intro p0 p1 hp
    have h0 : goFields (trimRightNL "usage.value abc\n".data) =
        ["usage.value".data, "abc".data] := by decide
    rw [h0] at hp
    obtain ⟨-, h1⟩ := List.cons.inj hp
    obtain ⟨h2, -⟩ := List.cons.inj h1
    rw [← h2]
    decide
  · exact claim_C2_amended_parse_policy.2 "oops\n".data [] [] []
      (by decide) (by decide) (by decide)

/-- C3: end-of-stream while further response lines are expected does
not terminate the process.  For `config`: whatever partial maps an
EOF-truncated attempt accumulated, the whole command is retried from
scratch — the outcome is that of the remaining attempts starting from
fresh empty maps, so the partial state is discarded, never merged.
For `fetch`: EOF makes `fetchMetrics` re-enter itself, re-walking all
graphs and re-issuing their commands against the remaining response
scripts (with the WaitGroup counter still incremented). -/
theorem claim_C3_eof_retry :
    (∀ (evs : List LineEv) (rest : List (List LineEv)) (cfg : CfgMap) (gcfg : AttrMap),
      configLoop evs cfg gcfg = AttemptRes.eofEnd →
      muninConfigModel (evs :: rest) = muninConfigModel rest)
    ∧ (∀ (hn : Str) (dur : GoFloat) (fuel : ℕ) (graphs : List Str)
        (env env' : List (List LineEv)) (st st' : MState) (wg : ℕ),
      graphsLoop hn graphs env st = CycleRes.eofRestart st' env' →
      fetchMetricsFuel hn dur (fuel + 1) graphs env st wg =
        fetchMetricsFuel hn dur fuel graphs env' st' (wg + 1)) := by
  constructor
  · intro evs rest cfg gcfg h
    have h0 : configLoop evs [] [] = AttemptRes.eofEnd :=
      configLoop_eofEnd_any evs cfg gcfg [] [] h
    rw [muninConfigModel, h0]
  · intro hn dur fuel graphs env env' st st' wg h
    rw [fetchMetricsFuel, h]

/-- C3 witness: a config attempt truncated after one stored line is
retried against the next script, ignoring the partial maps; a fetch
cycle hitting EOF on its first graph re-runs against the remaining
scripts. -/
theorem claim_C3_eof_retry_witness :
    muninConfigModel [[LineEv.full "graph_title T\n".data, LineEv.eofEv],
        [LineEv.full "usage.label U\n".data, LineEv.full ".\n".data]] =
      muninConfigModel [[LineEv.full "usage.label U\n".data, LineEv.full ".\n".data]] ∧
    fetchMetricsFuel "h".data (GoFloat.finite 3) 2 ["cpu".data]
        [[LineEv.eofEv], [LineEv.full ".\n".data]] ⟨[], []⟩ 0 =
      fetchMetricsFuel "h".data (GoFloat.finite 3) 1 ["cpu".data]
        [[LineEv.full ".\n".data]] ⟨[], []⟩ 1 := by
  constructor
  · exact claim_C3_eof_retry.1 [LineEv.full "graph_title T\n".data, LineEv.eofEv]
      [[LineEv.full "usage.label U\n".data, LineEv.full ".\n".data]]
      [("partial".data, [("attr".data, "v".data)])] [("graph_title".data, "T".data)]
      (by decide)
  · exact claim_C3_eof_retry.2 "h".data (GoFloat.finite 3) 1 ["cpu".data]
      [[LineEv.eofEv], [LineEv.full ".\n".data]] [[LineEv.full ".\n".data]]
      ⟨[], []⟩ ⟨[], []⟩ 0 (by decide)

/-- C1 (evidence of the code bug): the Export Gate marker does NOT
return to zero on aborted cycles.  On a cycle whose fetch read fails
with a non-EOF error, `fetchMetrics` returns without `wg.Done()` and
the counter stays at 1; on a cycle whose first response is truncated
by EOF, the retried invocation runs `wg.Add(1)` again, so even after
the retry completes successfully the counter is 1.  Only a cycle that
completes without abort restores the counter to 0.  A scrape handler
blocked in `wg.Wait()` therefore never proceeds after one aborted
cycle, contradicting the claim. -/
theorem claim_C1_wg_leak :
    ((fetchMetricsModel "h".data (GoFloat.finite 3) ["cpu".data] [[LineEv.ioErr]]
        ⟨[(fetchTimeKey, ⟨[], []⟩)], []⟩ 0).wg = 1 ∧
      (fetchMetricsModel "h".data (GoFloat.finite 3) ["cpu".data] [[LineEv.ioErr]]
        ⟨[(fetchTimeKey, ⟨[], []⟩)], []⟩ 0).outcome = FOutcome.errAbort) ∧
    ((fetchMetricsModel "h".data (GoFloat.finite 3) ["cpu".data]
        [[LineEv.eofEv], [LineEv.full ".\n".data]] ⟨[(fetchTimeKey, ⟨[], []⟩)], []⟩ 0).wg = 1 ∧
      (fetchMetricsModel "h".data (GoFloat.finite 3) ["cpu".data]
        [[LineEv.eofEv], [LineEv.full ".\n".data]] ⟨[(fetchTimeKey, ⟨[], []⟩)], []⟩ 0).outcome =
        FOutcome.ok) ∧
    (fetchMetricsModel "h".data (GoFloat.finite 3) ["cpu".data] [[LineEv.full ".\n".data]]
      ⟨[(fetchTimeKey, ⟨[], []⟩)], []⟩ 0).wg = 0 := by decide

/-- C8 counterexample: a cycle aborted by a protocol-level error ends
without publishing its duration — the duration gauge still holds the
previous cycle's value 7 and the whole metric state is unchanged —
refuting the claim that every cycle publishes its measured duration
when it ends. -/
theorem claim_C8_counterexample :
    (fetchMetricsModel "h".data (GoFloat.finite 3) ["cpu".data] [[LineEv.ioErr]]
        ⟨[(fetchTimeKey, ⟨[], [(["h".data], GoFloat.finite 7)]⟩)], []⟩ 0).st =
      ⟨[(fetchTimeKey, ⟨[], [(["h".data], GoFloat.finite 7)]⟩)], []⟩ ∧
    (fetchMetricsModel "h".data (GoFloat.finite 3) ["cpu".data] [[LineEv.ioErr]]
        ⟨[(fetchTimeKey, ⟨[], [(["h".data], GoFloat.finite 7)]⟩)], []⟩ 0).outcome =
      FOutcome.errAbort := by decide

theorem processLine_preserves_gauge_key (hn graph : Str) (st : MState) (line k : Str)
    (h : (alookup st.gauges k).isSome = true) :
    (alookup (processLine hn graph st line).gauges k).isSome = true := by
  unfold processLine
  cases hf : goFields line with
  | nil => exact h
  | cons p0 tl =>
    cases tl with
    | nil => exact h
    | cons p1 tl2 =>
      cases tl2 with
      | cons c tl3 => exact h
      | nil =>
        simp only []
        cases hp : parseFloat p1 with
        | none => exact h
        | some v =>
          simp only []
          cases hg : alookup st.gauges (fetchMetricName graph ((goSplit '.' p0).headD [])) with
          | some gv => exact (alookup_ainsert_isSome _ _ _ _).mpr (Or.inr h)
          | none =>
            cases hc : alookup st.counters (fetchMetricName graph ((goSplit '.' p0).headD [])) with
            | some c0 => exact h
            | none => exact h

theorem graphLoop_preserves_gauge_key (hn g k : Str) :
    ∀ (evs : List LineEv) (st : MState), (alookup st.gauges k).isSome = true →
      (alookup (graphLoop hn g evs st).state.gauges k).isSome = true := by
  intro evs
  induction evs with
  | nil => intro st h; exact h
  | cons ev rest ih =>
    intro st h
    cases ev with
    | eofEv => exact h
    | ioErr => exact h
    | full l =>
      simp only [graphLoop]
      by_cases hdot : (trimRightNL l).length = 1 ∧ (trimRightNL l).head? = some '.'
      · rw [if_pos hdot]
        exact h
      · rw [if_neg hdot]
        exact ih _ (processLine_preserves_gauge_key hn g st (trimRightNL l) k h)

theorem graphsLoop_preserves_gauge_key (hn k : Str) :
    ∀ (gs : List Str) (env : List (List LineEv)) (st : MState),
      (alookup st.gauges k).isSome = true →
      (alookup (graphsLoop hn gs env st).state.gauges k).isSome = true := by
  intro gs
  induction gs with
  | nil => intro env st h; exact h
  | cons g gs ih =>
    intro env st h
    cases env with
    | nil => exact h
    | cons sc envRest =>
      rw [graphsLoop]
      have hpre := graphLoop_preserves_gauge_key hn g k sc st h
      cases hres : graphLoop hn g sc st with
      | finished st' =>
        rw [hres] at hpre
        exact ih envRest st' hpre
      | ioAbort st' =>
        rw [hres] at hpre
        exact hpre
      | eofHit st' =>
        rw [hres] at hpre
        exact hpre
      | blocked st' =>
        rw [hres] at hpre
        exact hpre

theorem setFetchTime_sets (st : MState) (hn : Str) (dur : GoFloat)
    (h : (alookup st.gauges fetchTimeKey).isSome = true) :
    ∃ gv : GaugeVec, alookup (setFetchTime st hn dur).gauges fetchTimeKey = some gv ∧
      alookup gv.children [hn] = some dur := by
  unfold setFetchTime
  cases hx : alookup st.gauges fetchTimeKey with
  | none =>
    rw [hx] at h
    simp at h
  | some gv0 =>
    refine ⟨gv0.set [hn] dur, ?_, ?_⟩
    · exact alookup_ainsert_self _ _ _
    · simp [GaugeVec.set, alookup_ainsert_self]

theorem fetchMetricsFuel_ok_duration (hn : Str) (dur : GoFloat) :
    ∀ (fuel : ℕ) (graphs : List Str) (env : List (List LineEv)) (st : MState) (wg : ℕ),
      (alookup st.gauges fetchTimeKey).isSome = true →
      (fetchMetricsFuel hn dur fuel graphs env st wg).outcome = FOutcome.ok →
      ∃ gv, alookup (fetchMetricsFuel hn dur fuel graphs env st wg).st.gauges
          fetchTimeKey = some gv ∧
        alookup gv.children [hn] = some dur := by
  intro fuel
  induction fuel with
  | zero =>
    intro graphs env st wg hkey hok
    simp [fetchMetricsFuel] at hok
  | succ fuel ih =>
    intro graphs env st wg hkey hok
    simp only [fetchMetricsFuel] at hok ⊢
    have hpre := graphsLoop_preserves_gauge_key hn fetchTimeKey graphs env st hkey
    revert hok
    cases hres : graphsLoop hn graphs env st with
    | ok st' env' =>
      intro hok
      rw [hres] at hpre
      exact setFetchTime_sets st' hn dur hpre
    | errAbort st' env' =>
      intro hok
      simp at hok
    | eofRestart st' env' =>
      intro hok
      rw [hres] at hpre
      exact ih graphs env' st' (wg + 1) hpre hok
    | blocked st' =>
      intro hok
      simp at hok

/-- C8 amended: the Sampler publishes its measured wall-clock cycle
duration on the dedicated gauge (registered as
`munin_exporter_munin_data_fetch_time`, catalog key
`munin_fetching_metric`), labeled by the agent hostname, whenever the
cycle runs to completion; a cycle aborted by a protocol-level error
ends without publishing (see the counterexample). -/
theorem claim_C8_amended_fetch_time (hn : Str) (dur : GoFloat) (graphs : List Str)
    (env : List (List LineEv)) (st : MState) (wg : ℕ)
    (hkey : (alookup st.gauges fetchTimeKey).isSome = true)
    (hok : (fetchMetricsModel hn dur graphs env st wg).outcome = FOutcome.ok) :
    ∃ gv, alookup (fetchMetricsModel hn dur graphs env st wg).st.gauges
        fetchTimeKey = some gv ∧
      alookup gv.children [hn] = some dur :=
  fetchMetricsFuel_ok_duration hn dur (env.length + 1) graphs env st wg hkey hok

/-- C8 witness: a completing cycle over one graph publishes the
measured duration 3 under the hostname label. -/
theorem claim_C8_amended_fetch_time_witness :
    ∃ gv, alookup (fetchMetricsModel "h".data (GoFloat.finite 3) ["cpu".data]
        [[LineEv.full ".\n".data]] ⟨[(fetchTimeKey, ⟨[], []⟩)], []⟩ 0).st.gauges
        fetchTimeKey = some gv ∧
      alookup gv.children ["h".data] = some (GoFloat.finite 3) :=
  claim_C8_amended_fetch_time "h".data (GoFloat.finite 3) ["cpu".data]
    [[LineEv.full ".\n".data]] ⟨[(fetchTimeKey, ⟨[], []⟩)], []⟩ 0 (by decide) (by decide)

/-- C10 counterexample: two registrations whose sanitized identifiers
collide (`a-b` with type `counter` and `a_b` untyped, both under
graph `g`) leave the identifier `g_a_b` as a key of BOTH lookup maps,
refuting "never both". -/
theorem claim_C10_counterexample :
    (alookup (registerMetricsModel [("g".data,
        [("a-b".data, [("type".data, "counter".data), ("label".data, "x".data)]),
         ("a_b".data, [("label".data, "y".data)])], [])]).gauges "g_a_b".data).isSome = true ∧
    (alookup (registerMetricsModel [("g".data,
        [("a-b".data, [("type".data, "counter".data), ("label".data, "x".data)]),
         ("a_b".data, [("label".data, "y".data)])], [])]).counters "g_a_b".data).isSome =
      true := by decide

/-! Provenance bookkeeping for the registration fold, used by the
amended C10 theorem. -/

/-- One registration step, over the flattened registration sequence. -/
def regOne (st : MState) (r : Str × (Str × AttrMap) × AttrMap) : MState :=
  registerMetricsOne r.1 r.2.1 r.2.2 st

/-- All individual registrations of `registerMetrics`, flattened in
processing order. -/
def flattenReg (graphData : List (Str × List (Str × AttrMap) × AttrMap)) :
    List (Str × (Str × AttrMap) × AttrMap) :=
  graphData.flatMap (fun gd => gd.2.1.map (fun mc => (gd.1, mc, gd.2.2)))

/-- The sanitized identifiers registered from the catalog data. -/
def regIds (graphData : List (Str × List (Str × AttrMap) × AttrMap)) : List Str :=
  (flattenReg graphData).map (fun r => registerMetricName r.1 r.2.1.1)

theorem regOne_effect (st : MState) (r : Str × (Str × AttrMap) × AttrMap) :
    (classifyKind r.2.1.2 = Kind.counterK ∧
      (regOne st r).gauges = st.gauges ∧
      (regOne st r).counters = ainsert st.counters (registerMetricName r.1 r.2.1.1)
        ⟨descOf r.2.2 r.2.1.2, GoFloat.finite 0, []⟩) ∨
    (classifyKind r.2.1.2 = Kind.gaugeK ∧
      (regOne st r).counters = st.counters ∧
      (regOne st r).gauges = ainsert st.gauges (registerMetricName r.1 r.2.1.1)
        ⟨descOf r.2.2 r.2.1.2, []⟩) := by
  unfold regOne registerMetricsOne
  cases hk : classifyKind r.2.1.2 with
  | counterK => exact Or.inl ⟨rfl, rfl, rfl⟩
  | gaugeK => exact Or.inr ⟨rfl, rfl, rfl⟩

theorem regFold_mono (regs : List (Str × (Str × AttrMap) × AttrMap)) :
    ∀ (st : MState) (id : Str),
      ((alookup st.gauges id).isSome = true →
        (alookup (regs.foldl regOne st).gauges id).isSome = true) ∧
      ((alookup st.counters id).isSome = true →
        (alookup (regs.foldl regOne st).counters id).isSome = true) := by
  induction regs with
  | nil => exact fun st id => ⟨fun h => h, fun h => h⟩
  | cons r rest ih =>
    intro st id
    have hstep : ((alookup st.gauges id).isSome = true →
        (alookup (regOne st r).gauges id).isSome = true) ∧
        ((alookup st.counters id).isSome = true →
          (alookup (regOne st r).counters id).isSome = true) := by
      rcases regOne_effect st r with ⟨-, hg, hc⟩ | ⟨-, hc, hg⟩
      · exact ⟨fun h => by rw [hg]; exact h,
          fun h => by rw [hc]; exact (alookup_ainsert_isSome _ _ _ _).mpr (Or.inr h)⟩
      · exact ⟨fun h => by rw [hg]; exact (alookup_ainsert_isSome _ _ _ _).mpr (Or.inr h),
          fun h => by rw [hc]; exact h⟩
    exact ⟨fun h => (ih (regOne st r) id).1 (hstep.1 h),
      fun h => (ih (regOne st r) id).2 (hstep.2 h)⟩

theorem regFold_invariant (regs : List (Str × (Str × AttrMap) × AttrMap)) :
    ∀ st : MState,
      (regs.map (fun r => registerMetricName r.1 r.2.1.1)).Nodup →
      (∀ id ∈ regs.map (fun r => registerMetricName r.1 r.2.1.1),
        (alookup st.gauges id).isSome = false ∧ (alookup st.counters id).isSome = false) →
      (∀ id, ¬((alookup st.gauges id).isSome = true ∧
        (alookup st.counters id).isSome = true)) →
      ((∀ id, ¬((alookup (regs.foldl regOne st).gauges id).isSome = true ∧
          (alookup (regs.foldl regOne st).counters id).isSome = true)) ∧
        (∀ id ∈ regs.map (fun r => registerMetricName r.1 r.2.1.1),
          (alookup (regs.foldl regOne st).gauges id).isSome = true ∨
          (alookup (regs.foldl regOne st).counters id).isSome = true) ∧
        (∀ id, ((alookup (regs.foldl regOne st).gauges id).isSome = true →
            (alookup st.gauges id).isSome = true ∨
            id ∈ regs.map (fun r => registerMetricName r.1 r.2.1.1)) ∧
          ((alookup (regs.foldl regOne st).counters id).isSome = true →
            (alookup st.counters id).isSome = true ∨
            id ∈ regs.map (fun r => registerMetricName r.1 r.2.1.1)))) := by
  induction regs with
  | nil =>
    intro st hnd hfresh hboth
    refine ⟨hboth, by simp, fun id => ⟨fun h => Or.inl h, fun h => Or.inl h⟩⟩
  | cons r rest ih =>
    intro st hnd hfresh hboth
    have hmapcons : ((r :: rest).map (fun r => registerMetricName r.1 r.2.1.1)) =
        registerMetricName r.1 r.2.1.1 ::
          rest.map (fun r => registerMetricName r.1 r.2.1.1) := List.map_cons _ _ _
    rw [hmapcons] at hnd hfresh
    obtain ⟨hnotin, hnd'⟩ := List.nodup_cons.mp hnd
    obtain ⟨hgfr, hcfr⟩ := hfresh (registerMetricName r.1 r.2.1.1) (List.mem_cons_self _ _)
    -- effect of the head registration
    have heff := regOne_effect st r
    -- the head identifier sits in exactly one map of `regOne st r`
    have hhead : (alookup (regOne st r).gauges (registerMetricName r.1 r.2.1.1)).isSome = true ∨
        (alookup (regOne st r).counters (registerMetricName r.1 r.2.1.1)).isSome = true := by
      rcases heff with ⟨-, -, hc⟩ | ⟨-, -, hg⟩
      · exact Or.inr (by rw [hc, alookup_ainsert_self]; rfl)
      · exact Or.inl (by rw [hg, alookup_ainsert_self]; rfl)
    -- provenance of a lookup in `regOne st r`
    have hprov : ∀ id, ((alookup (regOne st r).gauges id).isSome = true →
        (alookup st.gauges id).isSome = true ∨ id = registerMetricName r.1 r.2.1.1) ∧
        ((alookup (regOne st r).counters id).isSome = true →
          (alookup st.counters id).isSome = true ∨ id = registerMetricName r.1 r.2.1.1) := by
      intro id
      rcases heff with ⟨-, hg, hc⟩ | ⟨-, hc, hg⟩
      · constructor
        · intro h
          rw [hg] at h
          exact Or.inl h
        · intro h
          rw [hc] at h
          rcases (alookup_ainsert_isSome _ _ _ _).mp h with h1 | h1
          · exact Or.inr h1
          · exact Or.inl h1
      · constructor
        · intro h
          rw [hg] at h
          rcases (alookup_ainsert_isSome _ _ _ _).mp h with h1 | h1
          · exact Or.inr h1
          · exact Or.inl h1
        · intro h
          rw [hc] at h
          exact Or.inl h
    -- hypotheses for the tail
    have hfresh1 : ∀ id ∈ rest.map (fun r => registerMetricName r.1 r.2.1.1),
        (alookup (regOne st r).gauges id).isSome = false ∧
        (alookup (regOne st r).counters id).isSome = false := by
      intro id hmem
      obtain ⟨hg0, hc0⟩ := hfresh id (List.mem_cons_of_mem _ hmem)
      have hne : id ≠ registerMetricName r.1 r.2.1.1 := by
        intro heq
        exact hnotin (heq ▸ hmem)
      rcases heff with ⟨-, hg, hc⟩ | ⟨-, hc, hg⟩
      · refine ⟨by rw [hg]; exact hg0, ?_⟩
        rw [hc, alookup_ainsert_ne _ _ _ _ (fun h => hne h.symm)]
        exact hc0
      · refine ⟨?_, by rw [hc]; exact hc0⟩
        rw [hg, alookup_ainsert_ne _ _ _ _ (fun h => hne h.symm)]
        exact hg0
    have hboth1 : ∀ id, ¬((alookup (regOne st r).gauges id).isSome = true ∧
        (alookup (regOne st r).counters id).isSome = true) := by
      rintro id ⟨hgt, hct⟩
      rcases (hprov id).1 hgt with hgs | hid
      · rcases (hprov id).2 hct with hcs | hid'
        · exact hboth id ⟨hgs, hcs⟩
        · subst hid'
          rw [hgfr] at hgs
          exact Bool.false_ne_true hgs
      · subst hid
        rcases (hprov _).2 hct with hcs | -
        · rw [hcfr] at hcs
          exact Bool.false_ne_true hcs
        · rcases heff with ⟨-, hg, -⟩ | ⟨-, hc, -⟩
          · rw [hg, hgfr] at hgt
            exact Bool.false_ne_true hgt
          · rw [hc, hcfr] at hct
            exact Bool.false_ne_true hct
    obtain ⟨P1, P2, P3⟩ := ih (regOne st r) hnd' hfresh1 hboth1
    rw [List.foldl_cons]
    refine ⟨P1, ?_, ?_⟩
    · intro id hmem
      rw [hmapcons] at hmem
      rcases List.mem_cons.mp hmem with heq | hmem'
      · subst heq
        rcases hhead with hh | hh
        · exact Or.inl ((regFold_mono rest (regOne st r) _).1 hh)
        · exact Or.inr ((regFold_mono rest (regOne st r) _).2 hh)
      · exact P2 id hmem'
    · intro id
      rw [hmapcons]
      refine ⟨fun h => ?_, fun h => ?_⟩
      · rcases (P3 id).1 h with h1 | h1
        · rcases (hprov id).1 h1 with h2 | h2
          · exact Or.inl h2
          · exact Or.inr (h2 ▸ List.mem_cons_self _ _)
        · exact Or.inr (List.mem_cons_of_mem _ h1)
      · rcases (P3 id).2 h with h1 | h1
        · rcases (hprov id).2 h1 with h2 | h2
          · exact Or.inl h2
          · exact Or.inr (h2 ▸ List.mem_cons_self _ _)
        · exact Or.inr (List.mem_cons_of_mem _ h1)

theorem registerGraph_eq_foldl (name : Str) (configs : List (Str × AttrMap))
    (gcfg : AttrMap) (st : MState) :
    registerGraph name configs gcfg st =
      (configs.map (fun mc => (name, mc, gcfg))).foldl regOne st := by
  rw [registerGraph, List.foldl_map]
  rfl

theorem registerFold_eq (graphData : List (Str × List (Str × AttrMap) × AttrMap)) :
    ∀ st : MState,
      graphData.foldl (fun s gd => registerGraph gd.1 gd.2.1 gd.2.2 s) st =
        (flattenReg graphData).foldl regOne st := by
  induction graphData with
  | nil => intro st; rfl
  | cons gd rest ih =>
    intro st
    have hsplit : flattenReg (gd :: rest) =
        gd.2.1.map (fun mc => (gd.1, mc, gd.2.2)) ++ flattenReg rest := by
      unfold flattenReg
      rw [List.flatMap_cons]
    rw [List.foldl_cons, ih, hsplit, List.foldl_append, registerGraph_eq_foldl]

theorem processLine_one_map (hn graph : Str) (st : MState) (line : Str) :
    (processLine hn graph st line).counters = st.counters ∨
    (processLine hn graph st line).gauges = st.gauges := by
  unfold processLine
  cases hf : goFields line with
  | nil => exact Or.inl rfl
  | cons p0 tl =>
    cases tl with
    | nil => exact Or.inl rfl
    | cons p1 tl2 =>
      cases tl2 with
      | cons c tl3 => exact Or.inl rfl
      | nil =>
        simp only []
        cases hp : parseFloat p1 with
        | none => exact Or.inl rfl
        | some v =>
          simp only []
          cases hg : alookup st.gauges (fetchMetricName graph ((goSplit '.' p0).headD [])) with
          | some gv => exact Or.inl rfl
          | none =>
            cases hc : alookup st.counters
                (fetchMetricName graph ((goSplit '.' p0).headD [])) with
            | some c0 => exact Or.inr rfl
            | none => exact Or.inl rfl

theorem processLine_gauge_first (hn graph : Str) (st : MState) (line p0 p1 : Str)
    (hf : goFields line = [p0, p1])
    (hg : (alookup st.gauges (fetchMetricName graph ((goSplit '.' p0).headD []))).isSome =
      true) :
    (processLine hn graph st line).counters = st.counters := by
  unfold processLine
  rw [hf]
  simp only []
  cases hp : parseFloat p1 with
  | none => rfl
  | some v =>
    simp only []
    cases hgx : alookup st.gauges (fetchMetricName graph ((goSplit '.' p0).headD [])) with
    | some gv => rfl
    | none =>
      rw [hgx] at hg
      exact absurd hg (by simp)

/-- C10 amended: every registration inserts its identifier into
exactly one of the two lookup maps, so when all sanitized identifiers
of the catalog are pairwise distinct (and none collides with the
reserved `munin_fetching_metric` key), every registered identifier is
a key of exactly one of `gaugePerMetric` and `counterPerMetric` —
with identifier collisions across the two kinds, a key can end up in
both maps (see the counterexample).  Every fetch update modifies the
entry through exactly one of the two maps, the gauge map being
consulted first. -/
theorem claim_C10_amended_map_partition
    (graphData : List (Str × List (Str × AttrMap) × AttrMap))
    (hnodup : (regIds graphData).Nodup)
    (hres : fetchTimeKey ∉ regIds graphData) :
    (∀ id ∈ regIds graphData,
      ((alookup (registerMetricsModel graphData).gauges id).isSome = true ∨
        (alookup (registerMetricsModel graphData).counters id).isSome = true)) ∧
    (∀ id, ¬((alookup (registerMetricsModel graphData).gauges id).isSome = true ∧
      (alookup (registerMetricsModel graphData).counters id).isSome = true)) ∧
    (∀ (hn graph : Str) (st : MState) (line : Str),
      (processLine hn graph st line).counters = st.counters ∨
      (processLine hn graph st line).gauges = st.gauges) ∧
    (∀ (hn graph : Str) (st : MState) (line p0 p1 : Str),
      goFields line = [p0, p1] →
      (alookup st.gauges (fetchMetricName graph ((goSplit '.' p0).headD []))).isSome = true →
      (processLine hn graph st line).counters = st.counters) := by
  have hfold := registerFold_eq graphData (⟨[], []⟩ : MState)
  have hinv := regFold_invariant (flattenReg graphData) ⟨[], []⟩ hnodup
    (fun id _ => ⟨by simp [alookup], by simp [alookup]⟩)
    (fun id h => by simp [alookup] at h)
  obtain ⟨P1, P2, P3⟩ := hinv
  have hmodel : registerMetricsModel graphData =
      { (flattenReg graphData).foldl regOne ⟨[], []⟩ with
        gauges := ainsert ((flattenReg graphData).foldl regOne ⟨[], []⟩).gauges
          fetchTimeKey ⟨fetchTimeHelp, []⟩ } := by
    rw [registerMetricsModel, hfold]
  refine ⟨?_, ?_, processLine_one_map, processLine_gauge_first⟩
  · intro id hmem
    rw [hmodel]
    rcases P2 id hmem with h | h
    · exact Or.inl ((alookup_ainsert_isSome _ _ _ _).mpr (Or.inr h))
    · exact Or.inr h
  · rintro id ⟨hg, hc⟩
    rw [hmodel] at hg hc
    have hc' : (alookup ((flattenReg graphData).foldl regOne ⟨[], []⟩).counters id).isSome =
        true := hc
    rcases (alookup_ainsert_isSome _ _ _ _).mp hg with hid | hg'
    · subst hid
      rcases (P3 fetchTimeKey).2 hc' with h0 | h0
      · simp [alookup] at h0
      · exact hres h0
    · exact P1 id ⟨hg', hc'⟩

/-- C10 witness: with two distinct metrics (`usage` a gauge, `calls`
a derive counter) under graph `cpu`, each identifier is a key of at
least one map and no identifier is a key of both; processLine touches
at most one map, and when the derived identifier is a gauge the
counter map stays untouched. -/
theorem claim_C10_amended_map_partition_witness :
    ((alookup (registerMetricsModel [("cpu".data,
        [("usage".data, [("type".data, "GAUGE".data)]),
         ("calls".data, [("type".data, "DERIVE".data)])], [])]).gauges
        "cpu_usage".data).isSome = true ∨
      (alookup (registerMetricsModel [("cpu".data,
        [("usage".data, [("type".data, "GAUGE".data)]),
         ("calls".data, [("type".data, "DERIVE".data)])], [])]).counters
        "cpu_usage".data).isSome = true) ∧
    ¬((alookup (registerMetricsModel [("cpu".data,
        [("usage".data, [("type".data, "GAUGE".data)]),
         ("calls".data, [("type".data, "DERIVE".data)])], [])]).gauges
        "cpu_calls".data).isSome = true ∧
      (alookup (registerMetricsModel [("cpu".data,
        [("usage".data, [("type".data, "GAUGE".data)]),
         ("calls".data, [("type".data, "DERIVE".data)])], [])]).counters
        "cpu_calls".data).isSome = true) := by
  constructor
  · exact (claim_C10_amended_map_partition [("cpu".data,
      [("usage".data, [("type".data, "GAUGE".data)]),
       ("calls".data, [("type".data, "DERIVE".data)])], [])]
      (by decide) (by decide)).1 "cpu_usage".data (by decide)
  · exact (claim_C10_amended_map_partition [("cpu".data,
      [("usage".data, [("type".data, "GAUGE".data)]),
       ("calls".data, [("type".data, "DERIVE".data)])], [])]
      (by decide) (by decide)).2.1 "cpu_calls".data

end MuninExporter
